import Mathlib

/-!
Verification of the portfolio builder's core logic (`app.py`): the text
normalizer `make_list`, the filename sanitizer `slugify`, the document
assembler inside the `generate` handler, and the `download` handler.
Strings are modelled as `List Char`; ASCII character classes stand in for
Python's locale-aware ones.
-/

namespace Portfolio

/-- The ASCII whitespace characters stripped by Python's `str.strip()`. -/
def pyIsSpace (c : Char) : Bool :=
  c == ' ' || c == '\t' || c == '\n' || c == '\r' ||
  c == Char.ofNat 11 || c == Char.ofNat 12

/-- Python `str.strip()`: drop whitespace from both ends. -/
def pyStrip (l : List Char) : List Char :=
  ((l.dropWhile pyIsSpace).reverse.dropWhile pyIsSpace).reverse

/-- A regex word character `\w` (ASCII fragment): alphanumeric or underscore. -/
def isWordChar (c : Char) : Bool := c.isAlphanum || c == '_'

/-- The characters kept by `re.sub(r"(?u)[^-\w.]", "", text)` in `slugify`:
everything outside the class `[-\w.]` is removed. -/
def keepChar (c : Char) : Bool := c == '-' || isWordChar c || c == '.'

/-- `slugify` from `app.py` lines 15-18: strip, replace spaces with
underscores, delete characters outside `[-\w.]`, and fall back to
`"portfolio"` when the result is empty. -/
def slugify (s : List Char) : List Char :=
  let t := (pyStrip s).map (fun c => if c == ' ' then '_' else c)
  let u := t.filter keepChar
  if u.isEmpty then "portfolio".data else u

/-- A separator character of the regex `[,\n]+` in `make_list`. -/
def isSep (c : Char) : Bool := c == ',' || c == '\n'

/-- Split a list at every element satisfying `p`, keeping empty pieces —
the semantics of Python `str.split(sep)` for a one-character separator
(and of `re.split` on a single-character class). -/
def splitOnPred (p : Char → Bool) : List Char → List (List Char)
  | [] => [[]]
  | c :: rest =>
    if p c then [] :: splitOnPred p rest
    else
      match splitOnPred p rest with
      | [] => [[c]]
      | h :: t => (c :: h) :: t

/-- Helper for `splitRuns`: `acc` holds the current piece reversed, and
`inRun` records whether the previous character was a separator (so that a
run of consecutive separators yields a single split point). -/
def splitRunsAux : List Char → List Char → Bool → List (List Char)
  | [], acc, _ => [acc.reverse]
  | c :: rest, acc, inRun =>
    if isSep c then
      if inRun then splitRunsAux rest acc true
      else acc.reverse :: splitRunsAux rest [] true
    else splitRunsAux rest (c :: acc) false

/-- `re.split(r"[,\n]+", text)`: split on maximal runs of commas and
newlines, each run acting as one split point. -/
def splitRuns (l : List Char) : List (List Char) :=
  splitRunsAux l [] false

/-- `make_list` from `app.py` lines 21-40: empty text gives `[]`;
otherwise remove `'\r'`, strip, split by lines when `prefer_newline` is
set and a newline is present (else on runs of commas/newlines), strip each
piece, and keep only pieces longer than one character. -/
def make_list (text : List Char) (prefer_newline : Bool) : List (List Char) :=
  if text.isEmpty then []
  else
    let t := pyStrip (text.filter (fun c => !(c == '\r')))
    let parts :=
      if prefer_newline && t.contains '\n' then
        (splitOnPred (fun c => c == '\n') t).map pyStrip
      else
        (splitRuns t).map pyStrip
    parts.filter (fun p => !p.isEmpty && decide (1 < p.length))

/-- Spec-side restatement of §4.2: trim, replace spaces with underscores,
remove every character that is not a word-character, hyphen, underscore,
or period, and fall back to `"portfolio"` when empty. -/
def sanitizeSpec (displayName : List Char) : List Char :=
  let trimmed := pyStrip displayName
  let underscored := trimmed.map (fun c => if c == ' ' then '_' else c)
  let kept := underscored.filter
    (fun c => isWordChar c || c == '-' || c == '_' || c == '.')
  if kept.isEmpty then "portfolio".data else kept

lemma dropWhile_eq_self_of_forall {p : Char → Bool} {l : List Char}
    (h : ∀ c ∈ l, p c = false) : l.dropWhile p = l := by
  cases l with
  | nil => rfl
  | cons a t => simp [List.dropWhile_cons, h a (by simp)]

lemma pyStrip_eq_self_of_forall {l : List Char}
    (h : ∀ c ∈ l, pyIsSpace c = false) : pyStrip l = l := by
  unfold pyStrip
  rw [dropWhile_eq_self_of_forall h, dropWhile_eq_self_of_forall
    (fun c hc => h c (List.mem_reverse.mp hc)), List.reverse_reverse]

lemma map_eq_self_of_forall {f : Char → Char} {l : List Char}
    (h : ∀ c ∈ l, f c = c) : l.map f = l := by
  induction l with
  | nil => rfl
  | cons a t ih => simp [h a (by simp), ih (fun c hc => h c (by simp [hc]))]

lemma slugify_chars {s : List Char} : ∀ c ∈ slugify s, keepChar c = true := by
  intro c h
  simp only [slugify] at h
  split at h
  · exact (by decide : ∀ x ∈ "portfolio".data, keepChar x = true) c h
  · exact (List.mem_filter.mp h).2

lemma keepChar_not_space {c : Char} (h : keepChar c = true) :
    pyIsSpace c = false := by
  by_contra hs
  rw [Bool.not_eq_false] at hs
  simp only [pyIsSpace, Bool.or_eq_true, beq_iff_eq] at hs
  rcases hs with ((((h1 | h1) | h1) | h1) | h1) | h1 <;> subst h1 <;>
    exact absurd h (by decide)

lemma keepChar_not_space_char {c : Char} (h : keepChar c = true) :
    (c == ' ') = false := by
  by_contra hc
  rw [Bool.not_eq_false, beq_iff_eq] at hc
  subst hc
  exact absurd h (by decide)

lemma slugify_not_empty (s : List Char) : (slugify s).isEmpty = false := by
  simp only [slugify]
  split
  · decide
  · next h => simpa using h

lemma slugify_fixed {v : List Char} (hk : ∀ c ∈ v, keepChar c = true)
    (hne : v ≠ []) : slugify v = v := by
  have h1 : pyStrip v = v :=
    pyStrip_eq_self_of_forall (fun c hc => keepChar_not_space (hk c hc))
  have h2 : v.map (fun c => if c == ' ' then '_' else c) = v :=
    map_eq_self_of_forall
      (fun c hc => by rw [keepChar_not_space_char (hk c hc)]; rfl)
  have h3 : v.filter keepChar = v := List.filter_eq_self.mpr hk
  simp only [slugify, h1, h2, h3]
  rw [if_neg (by simp [hne])]

/-- C10: `slugify` is idempotent — applying it to its own output changes
nothing. -/
theorem slugify_idem (s : List Char) : slugify (slugify s) = slugify s := by
  refine slugify_fixed slugify_chars ?_
  have := slugify_not_empty s
  simpa using this

/-- C4: `slugify` implements the sanitizer contract of §4.2 (trim, spaces
to underscores, drop characters outside word/hyphen/underscore/period,
`"portfolio"` fallback), and maps `"  Jane Doe!! "` to `"Jane_Doe"`. -/
theorem slugify_meets_spec :
    (∀ s : List Char, slugify s = sanitizeSpec s) ∧
      slugify "  Jane Doe!! ".data = "Jane_Doe".data := by
  constructor
  · intro s
    have hpred : ∀ c, keepChar c
        = (isWordChar c || c == '-' || c == '_' || c == '.') := by
      intro c
      simp only [keepChar, isWordChar]
      cases hb : c.isAlphanum <;> cases h2 : (c == '-') <;>
        cases h3 : (c == '_') <;> cases h4 : (c == '.') <;>
        simp [hb, h2, h3, h4]
    simp only [slugify, sanitizeSpec]
    rw [List.filter_congr (fun c _ => hpred c)]
  · decide

lemma head?_of_dropWhile {p : Char → Bool} {l : List Char} {c : Char}
    (h : (l.dropWhile p).head? = some c) : p c = false := by
  have hd := List.head?_dropWhile_not p l
  rw [h] at hd
  exact hd

lemma getLast?_of_dropWhile {p : Char → Bool} {l : List Char} {c : Char}
    (h : (l.dropWhile p).getLast? = some c) : l.getLast? = some c := by
  induction l with
  | nil => simp at h
  | cons a t ih =>
    rw [List.dropWhile_cons] at h
    split at h
    · have ht := ih h
      cases t with
      | nil => simp at ht
      | cons b t2 => rw [List.getLast?_cons_cons]; exact ht
    · exact h

lemma pyStrip_head {l : List Char} {c : Char}
    (h : (pyStrip l).head? = some c) : pyIsSpace c = false := by
  unfold pyStrip at h
  rw [List.head?_reverse] at h
  have h2 := getLast?_of_dropWhile h
  rw [List.getLast?_reverse] at h2
  exact head?_of_dropWhile h2

lemma pyStrip_last {l : List Char} {c : Char}
    (h : (pyStrip l).getLast? = some c) : pyIsSpace c = false := by
  unfold pyStrip at h
  rw [List.getLast?_reverse] at h
  exact head?_of_dropWhile h

lemma pyStrip_eq_self_of_stripped {l : List Char}
    (h1 : ∀ c, l.head? = some c → pyIsSpace c = false)
    (h2 : ∀ c, l.getLast? = some c → pyIsSpace c = false) :
    pyStrip l = l := by
  have d1 : l.dropWhile pyIsSpace = l := by
    cases l with
    | nil => rfl
    | cons a t => simp [List.dropWhile_cons, h1 a rfl]
  have d2 : l.reverse.dropWhile pyIsSpace = l.reverse := by
    cases hr : l.reverse with
    | nil => rfl
    | cons a t =>
      have ha : l.getLast? = some a := by rw [← List.head?_reverse, hr]; rfl
      simp [List.dropWhile_cons, h2 a ha]
  unfold pyStrip
  rw [d1, d2, List.reverse_reverse]

lemma pyStrip_idem (l : List Char) : pyStrip (pyStrip l) = pyStrip l :=
  pyStrip_eq_self_of_stripped (fun _ h => pyStrip_head h)
    (fun _ h => pyStrip_last h)

/-- C1: every item produced by `make_list` has length at least two and
carries no leading or trailing whitespace (it is its own strip). -/
theorem make_list_clean (t : List Char) (b : Bool) (p : List Char)
    (hp : p ∈ make_list t b) : 2 ≤ p.length ∧ pyStrip p = p := by
  simp only [make_list] at hp
  split at hp
  · exact absurd hp (List.not_mem_nil p)
  · rw [List.mem_filter] at hp
    obtain ⟨hmem, hpred⟩ := hp
    have hlen : 2 ≤ p.length := by
      have h2 := (Bool.and_eq_true _ _ |>.mp hpred).2
      simpa using of_decide_eq_true h2
    refine ⟨hlen, ?_⟩
    have hq : ∃ q, p = pyStrip q := by
      split at hmem <;>
        · obtain ⟨q, _, hqq⟩ := List.mem_map.mp hmem
          exact ⟨q, hqq.symm⟩
    obtain ⟨q, rfl⟩ := hq
    exact pyStrip_idem q

/-- Witness for C1 at the concrete input `"hi"`. -/
theorem make_list_clean_witness :
    ['h','i'] ∈ make_list "hi".data false ∧
      (2 ≤ (['h','i'] : List Char).length ∧ pyStrip ['h','i'] = ['h','i']) :=
  ⟨by decide, make_list_clean "hi".data false ['h','i'] (by decide)⟩

/-- Drop the empty pieces that sit strictly between two split points,
keeping the first and last piece: composing this with a single-separator
split gives the semantics of splitting on a *run* of separators. -/
def dropMidEmpty : List (List Char) → List (List Char)
  | [] => []
  | [x] => [x]
  | x :: y :: rest =>
    if x.isEmpty then dropMidEmpty (y :: rest)
    else x :: dropMidEmpty (y :: rest)

/-- Collapse consecutive split points of a single-separator split into one:
the first piece is always kept, and interior empty pieces are dropped. -/
def collapseRuns : List (List Char) → List (List Char)
  | [] => []
  | first :: rest => first :: dropMidEmpty rest

lemma splitOnPred_ne_nil (p : Char → Bool) (l : List Char) :
    splitOnPred p l ≠ [] := by
  cases l with
  | nil => simp [splitOnPred]
  | cons c rest =>
    simp only [splitOnPred]
    split
    · simp
    · split <;> simp

lemma splitOnPred_cons_pair (p : Char → Bool) (l : List Char) :
    ∃ h t, splitOnPred p l = h :: t := by
  cases hsp : splitOnPred p l with
  | nil => exact absurd hsp (splitOnPred_ne_nil p l)
  | cons a b => exact ⟨a, b, rfl⟩

lemma dropMidEmpty_cons_ne {x : List Char} {t : List (List Char)}
    (hx : x.isEmpty = false) : dropMidEmpty (x :: t) = x :: dropMidEmpty t := by
  cases t with
  | nil => rfl
  | cons y r => simp [dropMidEmpty, hx]

lemma splitRunsAux_spec (l : List Char) :
    (∀ acc h t, splitOnPred isSep l = h :: t →
        splitRunsAux l acc false = (acc.reverse ++ h) :: dropMidEmpty t)
    ∧ splitRunsAux l [] true = dropMidEmpty (splitOnPred isSep l) := by
  induction l with
  | nil =>
    constructor
    · intro acc h t hsplit
      simp only [splitOnPred] at hsplit
      injection hsplit with e1 e2
      subst e1; subst e2
      simp [splitRunsAux, dropMidEmpty]
    · simp [splitRunsAux, splitOnPred, dropMidEmpty]
  | cons c rest ih =>
    obtain ⟨h0, t0, hsp⟩ := splitOnPred_cons_pair isSep rest
    by_cases hc : isSep c = true
    · constructor
      · intro acc h t hsplit
        simp only [splitOnPred, if_pos hc] at hsplit
        injection hsplit with e1 e2
        subst e1; subst e2
        simp [splitRunsAux, hc, ih.2]
      · have hstep : splitRunsAux (c :: rest) [] true
            = splitRunsAux rest [] true := by
          simp [splitRunsAux, hc]
        rw [hstep, ih.2]
        simp only [splitOnPred, if_pos hc, hsp]
        simp [dropMidEmpty]
    · have hcf : isSep c = false := by simpa using hc
      have hsplitc : splitOnPred isSep (c :: rest) = (c :: h0) :: t0 := by
        simp only [splitOnPred, hcf, hsp]
        simp
      constructor
      · intro acc h t hsplit
        rw [hsplitc] at hsplit
        injection hsplit with e1 e2
        subst e1; subst e2
        have hstep : splitRunsAux (c :: rest) acc false
            = splitRunsAux rest (c :: acc) false := by
          simp [splitRunsAux, hcf]
        rw [hstep, ih.1 (c :: acc) h0 t0 hsp]
        simp
      · have hstep : splitRunsAux (c :: rest) [] true
            = splitRunsAux rest [c] false := by
          simp [splitRunsAux, hcf]
        rw [hstep, ih.1 [c] h0 t0 hsp, hsplitc,
          dropMidEmpty_cons_ne (by simp)]
        simp

/-- The direct run-splitting loop agrees with splitting on every single
separator and then collapsing consecutive split points. -/
lemma splitRuns_eq_collapse (l : List Char) :
    splitRuns l = collapseRuns (splitOnPred isSep l) := by
  obtain ⟨h0, t0, hsp⟩ := splitOnPred_cons_pair isSep l
  unfold splitRuns
  rw [(splitRunsAux_spec l).1 [] h0 t0 hsp, hsp]
  simp [collapseRuns]

/-- Spec-side restatement of the split phase of §4.1: remove carriage
returns, trim, then either split strictly on line breaks (when
`preferLineSplit` holds and a line break is present) or split on any run
of commas and line breaks, each run collapsing to one split point; each
piece is trimmed. -/
def splitPhaseSpec (t : List Char) (preferLineSplit : Bool) :
    List (List Char) :=
  let cleaned := pyStrip (t.filter (fun c => !(c == '\r')))
  if preferLineSplit && cleaned.contains '\n' then
    (splitOnPred (fun c => c == '\n') cleaned).map pyStrip
  else
    (collapseRuns (splitOnPred isSep cleaned)).map pyStrip

/-- C2: on non-empty input, `make_list` is exactly the spec's pipeline —
remove carriage returns and trim, split by lines when `prefer_newline` is
set and a newline is present, otherwise split on runs of commas and
newlines collapsed to single split points, followed by the length filter. -/
theorem make_list_pipeline (t : List Char) (b : Bool) (h : t ≠ []) :
    make_list t b
      = (splitPhaseSpec t b).filter
          (fun p => !p.isEmpty && decide (1 < p.length)) := by
  have hne : t.isEmpty = false := by simp [h]
  simp only [make_list, splitPhaseSpec, hne, splitRuns_eq_collapse]
  simp

/-- Witness for C2 at the concrete input `"a,b"`. -/
theorem make_list_pipeline_witness :
    "a,b".data ≠ [] ∧
      make_list "a,b".data false
        = (splitPhaseSpec "a,b".data false).filter
            (fun p => !p.isEmpty && decide (1 < p.length)) :=
  ⟨by decide, make_list_pipeline "a,b".data false (by decide)⟩

/-- C8: empty input yields the empty sequence; `make_list` is a total
function, so it succeeds on every input. -/
theorem make_list_empty (b : Bool) : make_list [] b = [] := rfl

/-- C9: a comma-separated pair splits at the comma and keeps interior
spaces of each item. -/
theorem make_list_comma_example :
    make_list "Data Analytics, Web Development".data false
      = ["Data Analytics".data, "Web Development".data] := by decide

/-- A paragraph style preset of the generator: title, section heading, or
body text (`app.py` lines 79-106). -/
inductive Style
  | title
  | heading
  | normal
deriving DecidableEq

/-- One renderable content block handed to the layout engine: a styled
paragraph, the divider rule, or a spacer. -/
inductive Block
  | Para (text : List Char) (style : Style)
  | Divider
  | Spacer (w h : Nat)
deriving DecidableEq

/-- The raw form fields read by `POST /generate`; an absent field defaults
to the empty string. -/
structure ProfileForm where
  name : List Char
  email : List Char
  phone : List Char
  linkedin : List Char
  github : List Char
  website : List Char
  about : List Char
  skills : List Char
  education : List Char
  projects : List Char
  certifications : List Char
  achievements : List Char
  interests : List Char

/-- The profile record of §3: scalar fields trimmed, list fields an
ordered sequence of normalized items. -/
structure ProfileData where
  name : List Char
  email : List Char
  phone : List Char
  linkedin : List Char
  github : List Char
  website : List Char
  about : List Char
  education : List Char
  skills : List (List Char)
  projects : List (List Char)
  certifications : List (List Char)
  achievements : List (List Char)
  interests : List (List Char)

/-- Building the profile record (`app.py` lines 50-64): strip every scalar
field, normalize every list field with `prefer_newline` set. -/
def buildData (f : ProfileForm) : ProfileData :=
  { name := pyStrip f.name
    email := pyStrip f.email
    phone := pyStrip f.phone
    linkedin := pyStrip f.linkedin
    github := pyStrip f.github
    website := pyStrip f.website
    about := pyStrip f.about
    education := pyStrip f.education
    skills := make_list f.skills true
    projects := make_list f.projects true
    certifications := make_list f.certifications true
    achievements := make_list f.achievements true
    interests := make_list f.interests true }

/-- Body blocks of a scalar section: one paragraph with the text, or the
placeholder dash when the text is empty. -/
def scalarBody (txt : List Char) : List Block :=
  [Block.Para (if txt.isEmpty then "-".data else txt) Style.normal]

/-- Body blocks of a list section: one bullet item per entry, or the
placeholder dash when the list is empty. -/
def listBody (items : List (List Char)) : List Block :=
  if items.isEmpty then [Block.Para "-".data Style.normal]
  else items.map (fun i => Block.Para ("• ".data ++ i) Style.normal)

/-- A scalar section: heading followed by its body. -/
def sectionScalar (name : List Char) (txt : List Char) : List Block :=
  Block.Para name Style.heading :: scalarBody txt

/-- A list section: heading followed by its body. -/
def sectionList (name : List Char) (items : List (List Char)) : List Block :=
  Block.Para name Style.heading :: listBody items

/-- The contact parts built at `app.py` lines 113-123: label-prefixed
values of the present fields, in fixed order. -/
def contactParts (d : ProfileData) : List (List Char) :=
  (if d.email.isEmpty then [] else ["Email: ".data ++ d.email])
    ++ (if d.phone.isEmpty then [] else ["Phone: ".data ++ d.phone])
    ++ (if d.linkedin.isEmpty then [] else ["LinkedIn: ".data ++ d.linkedin])
    ++ (if d.github.isEmpty then [] else ["GitHub: ".data ++ d.github])
    ++ (if d.website.isEmpty then [] else ["Website: ".data ++ d.website])

/-- The contact-line block of `app.py` lines 125-127: the parts joined
with a bar separator, omitted when no part is present. -/
def contactLineBlocks (d : ProfileData) : List Block :=
  if (contactParts d).isEmpty then []
  else [Block.Para (List.intercalate " | ".data (contactParts d)) Style.normal]

/-- The block sequence assembled by `generate` (`app.py` lines 108-184):
title, optional contact line, divider and spacer, then the seven fixed
sections in order. -/
def assemble (d : ProfileData) : List Block :=
  Block.Para (if d.name.isEmpty then "Your Name".data else d.name) Style.title
    :: (contactLineBlocks d
      ++ [Block.Divider, Block.Spacer 1 8]
      ++ sectionScalar "About Me".data d.about
      ++ sectionList "Skills".data d.skills
      ++ sectionScalar "Education".data d.education
      ++ sectionList "Projects".data d.projects
      ++ sectionList "Certifications".data d.certifications
      ++ sectionList "Achievements".data d.achievements
      ++ sectionList "Interests".data d.interests)

/-- Whether a block is a section heading. -/
def isHeading : Block → Bool
  | Block.Para _ Style.heading => true
  | _ => false

/-- Parse an assembled block sequence back into the preamble (blocks
before the first heading) and the sections: each heading text paired with
the body blocks that follow it up to the next heading. -/
def splitSections : List Block → List Block × List (List Char × List Block)
  | [] => ([], [])
  | b :: rest =>
    let r := splitSections rest
    match b with
    | Block.Para t Style.heading => ([], (t, r.1) :: r.2)
    | _ => (b :: r.1, r.2)

lemma splitSections_cons_heading (t : List Char) (rest : List Block) :
    splitSections (Block.Para t Style.heading :: rest)
      = ([], (t, (splitSections rest).1) :: (splitSections rest).2) := rfl

lemma splitSections_cons_nonheading {b : Block} (hb : isHeading b = false)
    (rest : List Block) :
    splitSections (b :: rest)
      = (b :: (splitSections rest).1, (splitSections rest).2) := by
  cases b with
  | Para t s =>
    cases s with
    | heading => simp [isHeading] at hb
    | title => rfl
    | normal => rfl
  | Divider => rfl
  | Spacer w h => rfl

lemma splitSections_append_nonheads {xs : List Block}
    (hxs : ∀ b ∈ xs, isHeading b = false) (ys : List Block) :
    splitSections (xs ++ ys)
      = (xs ++ (splitSections ys).1, (splitSections ys).2) := by
  induction xs with
  | nil => simp
  | cons a t ih =>
    rw [List.cons_append, splitSections_cons_nonheading (hxs a (by simp)),
      ih (fun b hb => hxs b (by simp [hb]))]
    simp

lemma splitSections_nil : splitSections ([] : List Block) = ([], []) := rfl

lemma splitSections_nonheads {xs : List Block}
    (hxs : ∀ b ∈ xs, isHeading b = false) :
    splitSections xs = (xs, []) := by
  simpa [splitSections_nil] using splitSections_append_nonheads hxs []

lemma isHeading_title_block (t : List Char) :
    isHeading (Block.Para t Style.title) = false := rfl

lemma isHeading_divider_block : isHeading Block.Divider = false := rfl

lemma isHeading_spacer_block (w h : Nat) :
    isHeading (Block.Spacer w h) = false := rfl

lemma noHeading_scalarBody (txt : List Char) :
    ∀ b ∈ scalarBody txt, isHeading b = false := by
  intro b hb
  simp only [scalarBody, List.mem_singleton] at hb
  subst hb
  rfl

lemma noHeading_listBody (items : List (List Char)) :
    ∀ b ∈ listBody items, isHeading b = false := by
  intro b hb
  simp only [listBody] at hb
  split at hb
  · simp at hb
    subst hb
    rfl
  · obtain ⟨i, _, rfl⟩ := List.mem_map.mp hb
    rfl

lemma noHeading_contactLineBlocks (d : ProfileData) :
    ∀ b ∈ contactLineBlocks d, isHeading b = false := by
  intro b hb
  simp only [contactLineBlocks] at hb
  split at hb
  · simp at hb
  · simp at hb
    subst hb
    rfl

lemma splitSections_assemble (d : ProfileData) :
    splitSections (assemble d)
      = (Block.Para (if d.name.isEmpty then "Your Name".data else d.name)
            Style.title
            :: (contactLineBlocks d ++ [Block.Divider, Block.Spacer 1 8]),
         [("About Me".data, scalarBody d.about),
          ("Skills".data, listBody d.skills),
          ("Education".data, scalarBody d.education),
          ("Projects".data, listBody d.projects),
          ("Certifications".data, listBody d.certifications),
          ("Achievements".data, listBody d.achievements),
          ("Interests".data, listBody d.interests)]) := by
  unfold assemble sectionScalar sectionList
  simp only [List.append_assoc, List.cons_append, List.nil_append]
  rw [splitSections_cons_nonheading (isHeading_title_block _),
    splitSections_append_nonheads (noHeading_contactLineBlocks d),
    splitSections_cons_nonheading isHeading_divider_block,
    splitSections_cons_nonheading (isHeading_spacer_block 1 8),
    splitSections_cons_heading,
    splitSections_append_nonheads (noHeading_scalarBody d.about),
    splitSections_cons_heading,
    splitSections_append_nonheads (noHeading_listBody d.skills),
    splitSections_cons_heading,
    splitSections_append_nonheads (noHeading_scalarBody d.education),
    splitSections_cons_heading,
    splitSections_append_nonheads (noHeading_listBody d.projects),
    splitSections_cons_heading,
    splitSections_append_nonheads (noHeading_listBody d.certifications),
    splitSections_cons_heading,
    splitSections_append_nonheads (noHeading_listBody d.achievements),
    splitSections_cons_heading,
    splitSections_nonheads (noHeading_listBody d.interests)]
  simp

/-- C3: the assembled document always consists of the title, the optional
contact line, the divider and spacer, and then exactly the seven fixed
sections in order, every heading present, with list sections carrying one
bullet per entry (or a dash placeholder) and scalar sections a single
paragraph (or a dash); in particular the output is never empty. -/
theorem assemble_fixed_layout (d : ProfileData) :
    (splitSections (assemble d)).2
        = [("About Me".data, scalarBody d.about),
           ("Skills".data, listBody d.skills),
           ("Education".data, scalarBody d.education),
           ("Projects".data, listBody d.projects),
           ("Certifications".data, listBody d.certifications),
           ("Achievements".data, listBody d.achievements),
           ("Interests".data, listBody d.interests)]
      ∧ (splitSections (assemble d)).1
          = Block.Para (if d.name.isEmpty then "Your Name".data else d.name)
                Style.title
              :: (contactLineBlocks d ++ [Block.Divider, Block.Spacer 1 8])
      ∧ assemble d ≠ [] := by
  refine ⟨?_, ?_, ?_⟩
  · rw [splitSections_assemble]
  · rw [splitSections_assemble]
  · simp [assemble]

/-- The contact fields with their fixed label prefixes, in the fixed
order of §4.3 step 2. -/
def contactFieldList (d : ProfileData) : List (List Char × List Char) :=
  [("Email: ".data, d.email), ("Phone: ".data, d.phone),
   ("LinkedIn: ".data, d.linkedin), ("GitHub: ".data, d.github),
   ("Website: ".data, d.website)]

/-- C7: the contact parts are exactly the present fields among email,
phone, linkedin, github, website in fixed order, each with its label
prefix; the contact-line block joins them with a bar separator and is
omitted entirely when every contact field is empty. -/
theorem contact_line_spec (d : ProfileData) :
    contactParts d
        = (contactFieldList d).filterMap
            (fun f => if f.2.isEmpty then none else some (f.1 ++ f.2))
      ∧ contactLineBlocks d
          = (if (contactFieldList d).all (fun f => f.2.isEmpty) then []
             else [Block.Para
                (List.intercalate " | ".data (contactParts d)) Style.normal]) := by
  by_cases h1 : d.email = [] <;> by_cases h2 : d.phone = [] <;>
    by_cases h3 : d.linkedin = [] <;> by_cases h4 : d.github = [] <;>
    by_cases h5 : d.website = [] <;>
    exact ⟨by simp [contactParts, contactFieldList, List.filterMap_cons,
        List.isEmpty_iff, h1, h2, h3, h4, h5],
      by simp [contactLineBlocks, contactParts, contactFieldList,
        List.isEmpty_iff, h1, h2, h3, h4, h5]⟩

/-- Modelled from the spec: the typesetting engine and the filesystem are
out of scope of the source (§2 treats the renderer as a deterministic
black box consuming an ordered list of styled blocks, §6 a flat storage
directory), so durable storage is a map from filename to the block
sequence handed to the renderer. -/
abbrev Storage : Type := List Char → Option (List Block)

/-- Write (or overwrite) one file on storage: last write wins. -/
def setFile (s : Storage) (n : List Char) (doc : List Block) : Storage :=
  fun m => if m = n then some doc else s m

/-- Storage holding no generated files. -/
def emptyStorage : Storage := fun _ => none

/-- The output filename computed at `app.py` line 66: slug of the name,
falling back to "portfolio", plus the ".pdf" suffix. -/
def outputFilename (d : ProfileData) : List Char :=
  slugify (if d.name.isEmpty then "portfolio".data else d.name) ++ ".pdf".data

/-- The `generate` handler (`app.py` lines 48-189) as a storage
transformer: build the profile record, assemble the document, write it at
the computed path, and report the filename. -/
def generateStep (s : Storage) (f : ProfileForm) : Storage × List Char :=
  let d := buildData f
  let n := outputFilename d
  (setFile s n (assemble d), n)

/-- An HTTP response of the download handler: body text, status code, and
the optional file attachment. -/
structure HttpResp where
  body : List Char
  status : Nat
  attachment : Option (List Block)
deriving DecidableEq

/-- The `download` handler (`app.py` lines 192-197): look the filename up
on storage; a missing file gives the plain-text 404, a present file is
served as an attachment. The handler performs no writes, so storage is
returned unchanged. -/
def download (s : Storage) (filename : List Char) : Storage × HttpResp :=
  match s filename with
  | none => (s, ⟨"File not found.".data, 404, none⟩)
  | some doc => (s, ⟨[], 200, some doc⟩)

/-- C5: downloading a filename that does not exist on storage yields the
plain-text "File not found." response with status 404 and no attachment,
and leaves storage unchanged. -/
theorem download_missing (s : Storage) (n : List Char) (h : s n = none) :
    download s n = (s, ⟨"File not found.".data, 404, none⟩) := by
  simp [download, h]

/-- Witness for C5: downloading "doesnotexist.pdf" from empty storage. -/
theorem download_missing_witness :
    download emptyStorage "doesnotexist.pdf".data
      = (emptyStorage, ⟨"File not found.".data, 404, none⟩) :=
  download_missing emptyStorage "doesnotexist.pdf".data rfl

/-- C6: generating twice from the same form input is idempotent — the
second call writes the identical document to the same path, overwriting
the first, and the stored document is the deterministic assembly of the
form. -/
theorem generate_idempotent (s : Storage) (f : ProfileForm) :
    generateStep (generateStep s f).1 f = generateStep s f
      ∧ (generateStep s f).1 (generateStep s f).2
          = some (assemble (buildData f)) := by
  constructor
  · have hw : ∀ (n : List Char) (doc : List Block) (st : Storage),
        setFile (setFile st n doc) n doc = setFile st n doc := by
      intro n doc st
      funext m
      by_cases hm : m = n <;> simp [setFile, hm]
    simp only [generateStep]
    rw [hw]
  · simp [generateStep, setFile]

end Portfolio
